import Mathlib

/-
A verification development for the `env` package: a bash-compatible
parameter-expansion engine (scanner, glob-pattern translator, expansion
parser, per-variant evaluator, and driver) working against a name/value
store. Go strings are modelled as lists of characters (the code is
ASCII-oriented, so byte positions and character positions coincide);
Go's `-1` sentinels become `Option Nat`; runtime panics (out-of-bounds
indexing or slicing) are modelled explicitly as a `panic` outcome.
-/

namespace VatineEnv

/-- A Go string, modelled as a list of characters. -/
abbrev Str := List Char

/-- The in-memory store `internal map[string]string`, modelled as an
association list with unique keys; `set` overwrites an existing binding. -/
abbrev Internal := List (Str × Str)

/-- Go `internal.Get`: look a name up, reporting presence via `Option`. -/
def Internal.get (e : Internal) (name : Str) : Option Str :=
  match e with
  | [] => none
  | (k, v) :: rest => if k = name then some v else Internal.get rest name

/-- Go `internal.Set`: bind `name` to `v`, overwriting any previous binding. -/
def Internal.set (e : Internal) (name v : Str) : Internal :=
  match e with
  | [] => [(name, v)]
  | (k, w) :: rest =>
    if k = name then (k, v) :: rest else (k, w) :: Internal.set rest name v

/-- Go `nameConstituent`: A-Z, a-z or 0-9. -/
def nameConstituent (c : Char) : Bool :=
  (decide ('A' ≤ c) && decide (c ≤ 'Z')) ||
    (decide ('a' ≤ c) && decide (c ≤ 'z')) ||
    (decide ('0' ≤ c) && decide (c ≤ '9'))

/-- Go `parameterConstituent`: a decimal digit. -/
def parameterConstituent (c : Char) : Bool :=
  decide ('0' ≤ c) && decide (c ≤ '9')

/-- The loop of `findNextStart`, walking the characters from position
`p` while carrying the absolute position: state 0 is the base state,
state 1 the backslash-escaped state (the escaped character is skipped).
(All index loops are modelled structurally over the remaining character
list so that they compute inside the kernel.) -/
def findNextStartAux : List Char → Nat → Nat → Option Nat
  | [], _, _ => none
  | c :: rest, p, state =>
    if state = 0 then
      if c = '$' then some p
      else if c = '\\' then findNextStartAux rest (p + 1) 1
      else findNextStartAux rest (p + 1) 0
    else findNextStartAux rest (p + 1) 0

/-- Go `findNextStart`: position of the next unescaped `$` at or after `p`.
Go returns `-1` for "no next", modelled as `none`. -/
def findNextStart (s : Str) (p : Nat) : Option Nat := findNextStartAux (s.drop p) p 0

/-- The loop of `skipToNext` from position `i`. -/
def skipToNextAux (charset : Str) : List Char → Nat → Option Nat
  | [], _ => none
  | c :: rest, i => if charset.contains c then some i else skipToNextAux charset rest (i + 1)

/-- Go `skipToNext`: next position at or after `i` holding a character of
`charset`; Go's `-1` sentinel is modelled as `none`. -/
def skipToNext (s charset : Str) (i : Nat) : Option Nat := skipToNextAux charset (s.drop i) i

/-- The 4-state loop of `findNextEnd`: state 0 looks at the start of the
variable, state 1 has seen `{`, state 2 is a bare name, state 3 a digit;
`l` is the string length, returned when the scan exhausts the string. -/
def findNextEndAux (l : Nat) : List Char → Nat → Nat → Nat
  | [], _, _ => l
  | c :: rest, p, state =>
    if state = 0 then
      if c = '$' then findNextEndAux l rest (p + 1) 0
      else if c = '{' then findNextEndAux l rest (p + 1) 1
      else if parameterConstituent c then findNextEndAux l rest (p + 1) 3
      else findNextEndAux l rest (p + 1) 2
    else if state = 1 then
      if c = '}' then p + 1 else findNextEndAux l rest (p + 1) 1
    else if state = 2 then
      if nameConstituent c then findNextEndAux l rest (p + 1) 2 else p
    else p

/-- Go `findNextEnd`: one past the last character of the expansion whose
`$` sits at position `p`. -/
def findNextEnd (s : Str) (p : Nat) : Nat := findNextEndAux s.length (s.drop p) p 0

/-- The expansion nodes, one constructor per Go node type (`match` is
renamed `patmatch`; `positional` holds a `Nat` since the parser only ever
produces a single decimal digit). -/
inductive Expansion
  | positional (i : Nat)
  | constant (s : Str)
  | normal (name : Str)
  | indirect (name : Str)
  | defaulted (name : Str) (word : Expansion) (unset : Bool)
  | assign (name : Str) (word : Expansion) (unset : Bool)
  | alternate (name : Str) (word : Expansion) (unset : Bool)
  | offset (name : Str) (off : Int) (len : Int) (useLen : Bool)
  | length (name : Str)
  | patmatch (name : Str) (pattern : Str) (longest : Bool) (suffix : Bool)
deriving DecidableEq, Repr

/-
The glob matcher. The repository delegates pattern matching to the Go
standard library's `path/filepath.Match` (an external collaborator); the
definitions below are a faithful translation of that function's Unix
build (`Separator` is `/`), with `ErrBadPattern` modelled as `.error ()`.
The chunk-consuming loops carry an explicit fuel argument that is always
initialised to more steps than the loop can take (every iteration
consumes at least one character of its chunk), so the fuel-exhaustion
branches are unreachable.
-/

/-- Go `getEsc`: read a possibly-escaped character from a bracket class.
Errors if the class is exhausted, starts with `-` or `]`, or nothing
follows the character read. -/
def getEsc (chunk : Str) : Except Unit (Char × Str) :=
  match chunk with
  | [] => .error ()
  | c :: rest =>
    if c = '-' ∨ c = ']' then .error ()
    else
      match (if c = '\\' then rest else c :: rest) with
      | [] => .error ()
      | r :: nchunk => if nchunk = [] then .error () else .ok (r, nchunk)

/-- The range-parsing loop inside `matchChunk`'s `[` case: consume
`lo`-`hi` ranges until the closing `]`, recording in `m` whether the
rune `r` fell in any range. -/
def matchRanges (fuel : Nat) (chunk : Str) (r : Char) (m : Bool) (nrange : Nat) :
    Except Unit (Str × Bool) :=
  match fuel with
  | 0 => .error ()
  | fuel + 1 =>
    match chunk, nrange with
    | ']' :: rest, _ + 1 => .ok (rest, m)
    | _, _ =>
      match getEsc chunk with
      | .error () => .error ()
      | .ok (lo, ch1) =>
        match ch1 with
        | '-' :: ch2 =>
          match getEsc ch2 with
          | .error () => .error ()
          | .ok (hi, ch3) =>
            matchRanges fuel ch3 r (m || (decide (lo ≤ r) && decide (r ≤ hi))) (nrange + 1)
        | _ =>
          matchRanges fuel ch1 r (m || (decide (lo ≤ r) && decide (r ≤ lo))) (nrange + 1)

/-- Go `matchChunk`: match a chunk (no stars) against the head of `s`.
`.ok (some rest)` is a successful match leaving `rest`, `.ok none` a
failed match, `.error ()` a bad pattern. The `failed` flag keeps
scanning after a mismatch purely to detect bad patterns, as in Go. -/
def matchChunkF (fuel : Nat) (chunk s : Str) (failed : Bool) : Except Unit (Option Str) :=
  match fuel with
  | 0 => .error ()
  | fuel + 1 =>
    match chunk with
    | [] => if failed then .ok none else .ok (some s)
    | c :: chrest =>
      let failed := failed || s.isEmpty
      if c = '[' then
        let rs : Char × Str :=
          match failed, s with
          | false, sc :: srest => (sc, srest)
          | _, _ => (Char.ofNat 0, s)
        let ng : Bool × Str :=
          match chrest with
          | '^' :: c2 => (true, c2)
          | _ => (false, chrest)
        match matchRanges (ng.2.length + 1) ng.2 rs.1 false 0 with
        | .error () => .error ()
        | .ok (restChunk, m) =>
          matchChunkF fuel restChunk rs.2 (failed || (m == ng.1))
      else if c = '?' then
        match failed, s with
        | false, sc :: srest => matchChunkF fuel chrest srest (sc = '/')
        | _, _ => matchChunkF fuel chrest s failed
      else if c = '\\' then
        match chrest with
        | [] => .error ()
        | d :: drest =>
          match failed, s with
          | false, sc :: srest => matchChunkF fuel drest srest (d ≠ sc)
          | _, _ => matchChunkF fuel drest s failed
      else
        match failed, s with
        | false, sc :: srest => matchChunkF fuel chrest srest (c ≠ sc)
        | _, _ => matchChunkF fuel chrest s failed

/-- Go `matchChunk` at its natural fuel. -/
def matchChunk (chunk s : Str) : Except Unit (Option Str) :=
  matchChunkF (chunk.length + 1) chunk s false

/-- Strip the leading run of `*` characters from a pattern. -/
def dropStars : Str → Str
  | '*' :: rest => dropStars rest
  | p => p

/-- The `Scan` loop of `scanChunk`: length of the chunk up to the next
top-level `*`, tracking bracket-class state and skipping escaped
characters. -/
def scanChunkLen (pattern : Str) (inrange : Bool) : Nat :=
  match pattern with
  | [] => 0
  | '\\' :: rest =>
    match rest with
    | [] => 1
    | _ :: rest2 => 2 + scanChunkLen rest2 inrange
  | '[' :: rest => 1 + scanChunkLen rest true
  | ']' :: rest => 1 + scanChunkLen rest false
  | '*' :: rest => if inrange then 1 + scanChunkLen rest inrange else 0
  | _ :: rest => 1 + scanChunkLen rest inrange

/-- Go `scanChunk`: split a pattern into (saw a leading star, first chunk,
remaining pattern). -/
def scanChunk (pattern : Str) : Bool × Str × Str :=
  let star := pattern.head? == some '*'
  let p := dropStars pattern
  let i := scanChunkLen p false
  (star, p.take i, p.drop i)

/-- The star loop of `filepath.Match`: look for a chunk match skipping
`i + 1` bytes of `name` (never skipping past a `/`), walking the
remaining characters of `name` structurally; `cont` is the enclosing
`Pattern` loop, re-entered on a useful chunk match. -/
def goMatchStar (cont : Str → Str → Except Unit Bool) (chunk rest name : Str) :
    List Char → Nat → Except Unit Bool
  | [], _ => .ok false
  | c :: nrest, i =>
    if c = '/' then .ok false
    else
      match matchChunk chunk (name.drop (i + 1)) with
      | .ok (some t) =>
        if rest.isEmpty && !t.isEmpty then goMatchStar cont chunk rest name nrest (i + 1)
        else cont rest t
      | .ok none => goMatchStar cont chunk rest name nrest (i + 1)
      | .error () => .error ()

/-- The `Pattern` loop of `filepath.Match`, with one fuel unit per
iteration (the pattern strictly shrinks each iteration, so the fuel
below never runs out). -/
def goMatchF : Nat → Str → Str → Except Unit Bool
  | 0, _, _ => .error ()
  | fuel + 1, pattern, name =>
    match pattern with
    | [] => .ok name.isEmpty
    | _ :: _ =>
      let sc := scanChunk pattern
      if sc.1 && sc.2.1.isEmpty then .ok (!(name.contains '/'))
      else
        match matchChunk sc.2.1 name with
        | .ok (some t) =>
          if t.isEmpty || !sc.2.2.isEmpty then goMatchF fuel sc.2.2 t
          else if sc.1 then goMatchStar (goMatchF fuel) sc.2.1 sc.2.2 name name 0
          else .ok false
        | .ok none =>
          if sc.1 then goMatchStar (goMatchF fuel) sc.2.1 sc.2.2 name name 0
          else .ok false
        | .error () => .error ()

/-- Go `path/filepath.Match` (Unix build): does the shell glob `pattern`
match `name`? -/
def filepathMatch (pattern name : Str) : Except Unit Bool :=
  goMatchF (pattern.length + 1) pattern name

/-- Go `manglePattern`'s 2-state loop: rewrite a `!` immediately following
`[` into `^`; all other characters are copied verbatim. -/
def manglePatternGo (p : Str) (state : Nat) : Str :=
  match p with
  | [] => []
  | r :: rest =>
    if state = 0 then
      if r = '[' then r :: manglePatternGo rest 1 else r :: manglePatternGo rest 0
    else
      (if r = '!' then '^' else r) :: manglePatternGo rest 0

/-- Go `manglePattern`: adapt POSIX bracket negation `[!...]` to
`filepath.Match`'s `[^...]`. -/
def manglePattern (p : Str) : Str := manglePatternGo p 0

/-- Decimal digits of a Nat, for `length.expand`'s `fmt.Sprintf` call. -/
def natToDecAux (fuel n : Nat) (acc : Str) : Str :=
  match fuel with
  | 0 => acc
  | fuel + 1 =>
    let acc := Char.ofNat (48 + n % 10) :: acc
    if n < 10 then acc else natToDecAux fuel (n / 10) acc

/-- Base-10 representation of a Nat as a `Str`. -/
def natToDec (n : Nat) : Str := natToDecAux (n + 1) n []

/-- The body of `offset.expand` after the store lookup: bash's signed
offset/length arithmetic with its clamping rules, over byte positions. -/
def offsetEval (v : Str) (off len : Int) (useLen : Bool) : Str :=
  let l : Int := v.length
  let b := if off < 0 then l + off else off
  if b < 0 then []
  else
    let endp := if useLen then (if len > 0 then b + len else l + len) else l
    let endp2 := if endp > l then l else endp
    if endp2 < b then []
    else (v.drop b.toNat).take (endp2 - b).toNat

/-- The ascending scan loops of `match.expand` (`for o := 0; o < l; o++`),
with `k` counting the remaining iterations (`l - o`): test the suffix
`v[o:]` (or, with `suffix = false`, the head `v[:o]`) and return the
complement on the first match; a matcher error returns empty text;
falling off the loop returns `v`. -/
def matchLoopUpAux (pattern v : Str) (suffix : Bool) : Nat → Nat → Str
  | _, 0 => v
  | o, k + 1 =>
    match filepathMatch pattern (if suffix then v.drop o else v.take o) with
    | .error () => []
    | .ok true => if suffix then v.take o else v.drop o
    | .ok false => matchLoopUpAux pattern v suffix (o + 1) k

/-- The ascending scan entered at offset `o`. -/
def matchLoopUp (pattern v : Str) (suffix : Bool) (o : Nat) : Str :=
  matchLoopUpAux pattern v suffix o (v.length - o)

/-- The descending scan loops of `match.expand`
(`for o := l; o >= 0; o--`). -/
def matchLoopDown (pattern v : Str) (suffix : Bool) (o : Nat) : Str :=
  match filepathMatch pattern (if suffix then v.drop o else v.take o) with
  | .error () => []
  | .ok true => if suffix then v.take o else v.drop o
  | .ok false =>
    match o with
    | 0 => v
    | o + 1 => matchLoopDown pattern v suffix o

/-- The body of `match.expand` after the store lookup: pick the scan
direction for the four (suffix, longest) combinations. -/
def matchEval (pattern v : Str) (longest suffix : Bool) : Str :=
  if suffix then
    if longest then matchLoopUp pattern v true 0
    else matchLoopDown pattern v true v.length
  else
    if longest then matchLoopDown pattern v false v.length
    else matchLoopUp pattern v false 0

/-- Evaluation, one rule per node variant. `args` models `os.Args`
(positional parameters bypass the store); the returned `Internal` is the
store after the call, since `assign` writes into it. -/
def Expansion.expand (args : List Str) : Expansion → Internal → Str × Internal
  | .positional i, e => (if args.length ≤ i then [] else args.getD i [], e)
  | .constant s, e => (s, e)
  | .normal name, e => (((Internal.get e name).getD []), e)
  | .indirect name, e =>
    ((match Internal.get e name with
      | none => []
      | some next => (Internal.get e next).getD []), e)
  | .defaulted name word unset, e =>
    (match Internal.get e name with
     | none => Expansion.expand args word e
     | some v =>
       if !unset && v.isEmpty then Expansion.expand args word e
       else (v, e))
  -- Note: Go's assign.expand never reads a.unset; only absence triggers.
  | .assign name word _unset, e =>
    (match Internal.get e name with
     | none =>
       let ve := Expansion.expand args word e
       (ve.1, Internal.set ve.2 name ve.1)
     | some v => (v, e))
  | .alternate name word unset, e =>
    (match Internal.get e name with
     | none => ([], e)
     | some v =>
       if v.isEmpty && !unset then ([], e)
       else Expansion.expand args word e)
  | .offset name off len useLen, e =>
    ((match Internal.get e name with
      | none => []
      | some v => offsetEval v off len useLen), e)
  | .length name, e => (natToDec ((Internal.get e name).getD []).length, e)
  | .patmatch name pattern longest suffix, e =>
    ((match Internal.get e name with
      | none => []
      | some v => matchEval pattern v longest suffix), e)

/-
The parser. Go's unchecked index and slice operations can panic at
runtime; `PE` makes that outcome explicit alongside ordinary
`(value, error)` returns.
-/

/-- The parser's Go error values; the `fmt.Errorf` messages are opaque. -/
inductive GoErr
  | unexpectedFirstChar (c : Char)
  | atoiFailed
  | switchFallthrough
deriving DecidableEq, Repr

/-- Outcome of Go code that returns `(value, error)` and may also panic
on an out-of-bounds index or slice. -/
inductive PE (α : Type)
  | ok : α → PE α
  | err : GoErr → PE α
  | panic : PE α
deriving DecidableEq, Repr

deriving instance DecidableEq for Except

/-- Sequencing: propagate errors and panics. -/
def PE.bind {α β : Type} : PE α → (α → PE β) → PE β
  | .ok a, f => f a
  | .err e, _ => .err e
  | .panic, _ => .panic

/-- Go index `s[i]`: panics when out of bounds. -/
def goGet (s : Str) (i : Nat) : PE Char :=
  if h : i < s.length then .ok (s.get ⟨i, h⟩) else .panic

/-- Go slice `s[i:j]`, where `j` may be the `-1` sentinel produced by
`skipToNext` (modelled as `none`): panics unless `i ≤ j ≤ len s`. -/
def goSlice (s : Str) (i : Nat) (j : Option Nat) : PE Str :=
  match j with
  | none => .panic
  | some j => if i ≤ j ∧ j ≤ s.length then .ok ((s.drop i).take (j - i)) else .panic

/-- A digit's value, if `c` is a decimal digit. -/
def digitVal (c : Char) : Option Nat :=
  if parameterConstituent c then some (c.toNat - 48) else none

/-- Accumulate decimal digits; `none` on any non-digit. -/
def parseDigits (s : Str) (acc : Nat) : Option Nat :=
  match s with
  | [] => some acc
  | c :: rest =>
    match digitVal c with
    | some d => parseDigits rest (acc * 10 + d)
    | none => none

/-- Go `strconv.Atoi` on the inputs arising here: an optional sign followed
by at least one decimal digit; anything else errors. (64-bit overflow is
not modelled.) -/
def goAtoi (s : Str) : Except GoErr Int :=
  match s with
  | [] => .error .atoiFailed
  | '+' :: rest =>
    (match rest, parseDigits rest 0 with
     | _ :: _, some n => .ok (n : Int)
     | _, _ => .error .atoiFailed)
  | '-' :: rest =>
    (match rest, parseDigits rest 0 with
     | _ :: _, some n => .ok (-(n : Int))
     | _, _ => .error .atoiFailed)
  | _ =>
    (match parseDigits s 0 with
     | some n => .ok (n : Int)
     | none => .error .atoiFailed)

/-- The loop of Go `for s[i] == c { i++ }`, over the characters from
position `i`: skip a run of `c`, panicking (like the Go indexing) if the
run reaches the end of the string. -/
def skipWhileCharAux (c : Char) : List Char → Nat → PE Nat
  | [], _ => .panic
  | d :: rest, i => if d = c then skipWhileCharAux c rest (i + 1) else .ok i

/-- Go `for s[i] == c { i++ }` from position `i`. -/
def skipWhileChar (s : Str) (c : Char) (i : Nat) : PE Nat :=
  skipWhileCharAux c (s.drop i) i

/-- The loop of Go `end := i; for s[end] != '}' { end++ }` in
`makeDefaulted`: position of the next `}`, panicking past the end. -/
def scanToCloseBraceAux : List Char → Nat → PE Nat
  | [], _ => .panic
  | c :: rest, i => if c = '}' then .ok i else scanToCloseBraceAux rest (i + 1)

/-- Go `makeDefaulted`'s brace scan from position `i`. -/
def scanToCloseBrace (s : Str) (i : Nat) : PE Nat :=
  scanToCloseBraceAux (s.drop i) i

/-- The loop of `for p < l && nameConstituent(s[p]) { p++ }`. -/
def scanNameAux : List Char → Nat → Nat
  | [], p => p
  | c :: rest, p => if nameConstituent c then scanNameAux rest (p + 1) else p

/-- End of the maximal run of name characters starting at `p`. -/
def scanName (s : Str) (p : Nat) : Nat := scanNameAux (s.drop p) p

/-- Go `makeOffseted`: parse `${name:<offset>}` or `${name:<offset>:<length>}`
operands starting at the first `:` (position `i`). -/
def makeOffseted (s : Str) (i : Nat) (name : Str) : PE Expansion :=
  PE.bind (skipWhileChar s ':' i) fun i1 =>
  PE.bind (skipWhileChar s ' ' i1) fun i2 =>
  let next := skipToNext s [':', '}'] i2
  PE.bind (goSlice s i2 next) fun tok =>
  match goAtoi tok with
  | .error er => .err er
  | .ok n =>
    match next with
    | none => .panic
    | some nx =>
      PE.bind (goGet s nx) fun cnx =>
      if cnx = ':' then
        PE.bind (skipWhileChar s ' ' (nx + 1)) fun i3 =>
        let endp := skipToNext s ['}'] i3
        PE.bind (goSlice s i3 endp) fun tok2 =>
        match goAtoi tok2 with
        | .error er => .err er
        | .ok m => .ok (.offset name n m true)
      else .ok (.offset name n 0 false)

/-- Go `makeMatch`: a second leading `#`/`%` selects the longest match; the
raw pattern runs to `}` and goes through `manglePattern`. -/
def makeMatch (s : Str) (i : Nat) (name : Str) (suffix : Bool) : PE Expansion :=
  let check := if suffix then '%' else '#'
  PE.bind (goGet s i) fun c =>
  let il : Nat × Bool := if c = check then (i + 1, true) else (i, false)
  let endp := skipToNext s ['}'] il.1
  PE.bind (goSlice s il.1 endp) fun raw =>
  .ok (.patmatch name (manglePattern raw) il.2 suffix)

/-- Go `makeDefaulted`: the word is a nested expansion if it starts with
`$` (parsed by `parse`, the recursive entry of `parseExpansion`), else
the literal text up to the next `}` (scanned by a bare loop that panics
if no `}` follows). -/
def makeDefaulted (parse : Str → Nat → PE Expansion) (s : Str) (i : Nat)
    (name : Str) (unsetOnly : Bool) : PE Expansion :=
  PE.bind (goGet s i) fun c =>
  if c = '$' then
    PE.bind (parse s i) fun w => .ok (.defaulted name w unsetOnly)
  else
    PE.bind (scanToCloseBrace s i) fun endp =>
    PE.bind (goSlice s i (some endp)) fun w =>
    .ok (.defaulted name (.constant w) unsetOnly)

/-- Go `makeAssigned`: like `makeDefaulted`, but the literal word runs to
the end found by `findNextEnd`. (Go also recomputes an `end` value in
the `$` branch; it is unused.) -/
def makeAssigned (parse : Str → Nat → PE Expansion) (s : Str) (i : Nat)
    (name : Str) (unsetOnly : Bool) : PE Expansion :=
  let endp := findNextEnd s i
  PE.bind (goGet s i) fun c =>
  if c = '$' then
    PE.bind (parse s i) fun w => .ok (.assign name w unsetOnly)
  else
    PE.bind (goSlice s i (some endp)) fun w =>
    .ok (.assign name (.constant w) unsetOnly)

/-- Go `makeAlternated`: same word-operand scheme as `makeAssigned`. -/
def makeAlternated (parse : Str → Nat → PE Expansion) (s : Str) (i : Nat)
    (name : Str) (unsetOnly : Bool) : PE Expansion :=
  let endp := findNextEnd s i
  PE.bind (goGet s i) fun c =>
  if c = '$' then
    PE.bind (parse s i) fun w => .ok (.alternate name w unsetOnly)
  else
    PE.bind (goSlice s i (some endp)) fun w =>
    .ok (.alternate name (.constant w) unsetOnly)

/-- The `for i := o+2; i < len(s); i++` dispatch loop of the braced
form, walking the characters from position `i` (so `c` is `s[i]`): the
FIRST special character found in the text decides the node kind;
exhausting the string is the fallthrough parse error. -/
def parseBraced (parse : Str → Nat → PE Expansion) (s : Str) (o : Nat) :
    List Char → Nat → PE Expansion
  | [], _ => .err .switchFallthrough
  | c :: rest, i =>
    if c = '!' then
      if i = o + 2 then
        PE.bind (goSlice s (i + 1) (some (findNextEnd s i))) fun nm =>
        .ok (.indirect nm)
      else parseBraced parse s o rest (i + 1)
    else if c = '#' then
      if i = o + 2 then
        PE.bind (goSlice s (i + 1) (some (findNextEnd s i))) fun nm =>
        .ok (.length nm)
      else
        PE.bind (goSlice s (o + 2) (some i)) fun nm => makeMatch s (i + 1) nm false
    else if c = '%' then
      PE.bind (goSlice s (o + 2) (some i)) fun nm => makeMatch s (i + 1) nm true
    else if c = ':' then
      PE.bind (goGet s (i + 1)) fun c2 =>
      if c2 = '-' then
        PE.bind (goSlice s (o + 2) (some i)) fun nm => makeDefaulted parse s (i + 2) nm false
      else if c2 = '=' then
        PE.bind (goSlice s (o + 2) (some i)) fun nm => makeAssigned parse s (i + 2) nm false
      else if c2 = '+' then
        PE.bind (goSlice s (o + 2) (some i)) fun nm => makeAlternated parse s (i + 2) nm false
      else
        PE.bind (goSlice s (o + 2) (some i)) fun nm => makeOffseted s i nm
    else if c = '-' then
      PE.bind (goSlice s (o + 2) (some i)) fun nm => makeDefaulted parse s (i + 1) nm true
    else if c = '=' then
      PE.bind (goSlice s (o + 2) (some i)) fun nm => makeAssigned parse s (i + 1) nm true
    else if c = '+' then
      PE.bind (goSlice s (o + 2) (some i)) fun nm => makeAlternated parse s (i + 1) nm true
    else if c = '}' then
      PE.bind (goSlice s (o + 2) (some i)) fun nm => .ok (.normal nm)
    else parseBraced parse s o rest (i + 1)

/-- Go `parseExpansion` with one fuel unit per nested word parse (the
top-level call supplies more fuel than any input can consume, since a
nested parse strictly advances the start position). Dispatches on the
character after `$`. -/
def parseExpansionF : Nat → Str → Nat → PE Expansion
  | 0, _, _ => .panic
  | fuel + 1, s, o =>
    PE.bind (goGet s o) fun c0 =>
    if c0 ≠ '$' then .err (.unexpectedFirstChar c0)
    else
      PE.bind (goGet s (o + 1)) fun c1 =>
      if parameterConstituent c1 then
        match goAtoi [c1] with
        | .error er => .err er
        | .ok n => .ok (.positional n.toNat)
      else if nameConstituent c1 then
        PE.bind (goSlice s (o + 1) (some (scanName s (o + 1)))) fun nm =>
        .ok (.normal nm)
      else if c1 = '{' then
        parseBraced (parseExpansionF fuel) s o (s.drop (o + 2)) (o + 2)
      else .err .switchFallthrough

/-- Go `parseExpansion` at ample fuel. -/
def parseExpansion (s : Str) (o : Nat) : PE Expansion :=
  parseExpansionF (s.length + 1) s o

/-
The driver.
-/

/-- Result of the Go driver `expand`: either a normal
`(text, error)` return, or a runtime panic raised somewhere below. -/
inductive DriverOut
  | ret (text : Str) (err : Option GoErr)
  | panicked
deriving DecidableEq, Repr

/-- The placeholder text Go's `expand` returns alongside any error. -/
def errPlaceholder : Str :=
  ['A', 'n', ' ', 'e', 'r', 'r', 'o', 'r', ' ', 'o', 'c', 'c', 'u', 'r', 'r', 'e', 'd']

/-- The driver loop: copy literal text, parse one node at each `$`,
evaluate it against the store, and continue after the node's span. A
parse error aborts immediately with the placeholder text; the store as
mutated so far is kept (the Go store is the caller's). One fuel unit per
iteration; the cursor strictly advances, so `len s + 1` units suffice. -/
def expandGo (fuel : Nat) (args : List Str) (s : Str) (offset : Nat) (e : Internal) :
    DriverOut × Internal :=
  match fuel with
  | 0 => (.panicked, e)
  | fuel + 1 =>
    match findNextStart s offset with
    | none => (.ret (s.drop offset) none, e)
    | some next =>
      let pre := (s.drop offset).take (next - offset)
      match parseExpansion s next with
      | .err er => (.ret errPlaceholder (some er), e)
      | .panic => (.panicked, e)
      | .ok exp =>
        let ve := Expansion.expand args exp e
        let res := expandGo fuel args s (findNextEnd s next) ve.2
        ((match res.1 with
          | .ret rest none => .ret (pre ++ ve.1 ++ rest) none
          | out => out), res.2)

/-- Go `expand(s, e)`: the full expansion of a template against a store. -/
def expand (args : List Str) (s : Str) (e : Internal) : DriverOut × Internal :=
  expandGo (s.length + 1) args s 0 e

/-- The nodes the driver parses for a template, in order, stopping at
the site where parsing fails (if any); parsing never consults the store,
so this depends on the template alone. -/
def templateNodesGo (fuel : Nat) (s : Str) (offset : Nat) : List Expansion :=
  match fuel with
  | 0 => []
  | fuel + 1 =>
    match findNextStart s offset with
    | none => []
    | some next =>
      match parseExpansion s next with
      | .ok exp => exp :: templateNodesGo fuel s (findNextEnd s next)
      | _ => []

/-- The full node list, `templateNodes`, at the driver's fuel. -/
def templateNodes (s : Str) : List Expansion := templateNodesGo (s.length + 1) s 0

/-- A node tree with no `assign` variant anywhere, including inside the
word operands of `defaulted` and `alternate`. -/
def assignFree : Expansion → Bool
  | .assign _ _ _ => false
  | .defaulted _ w _ => assignFree w
  | .alternate _ w _ => assignFree w
  | _ => true

/-- The Offset substring rule exactly as claim C5 words it, with the
optional length as an `Option` (spec-side definition, for comparison
with the code's `offsetEval`). -/
def offsetSpec (v : Str) (start : Int) (lengthOpt : Option Int) : Str :=
  let l : Int := v.length
  let begin1 := if start < 0 then l + start else start
  if begin1 < 0 then []
  else
    let end1 :=
      match lengthOpt with
      | none => l
      | some len => if len > 0 then begin1 + len else l + len
    let end2 := if end1 > l then l else end1
    if end2 < begin1 then []
    else (v.drop begin1.toNat).take (end2 - begin1).toNat

/-- The offsets each (suffix, longest) direction of Match scans, in
order, per amended claim C4: the two ascending directions cover
`0 .. l - 1`, the two descending directions cover `l` down to `0`. -/
def matchOffsets (l : Nat) (longest suffix : Bool) : List Nat :=
  if longest = suffix then List.range l else (List.range (l + 1)).reverse

/-- A match scan over an explicit offset list, written from the claim's
words: return the complementary slice at the first matching offset,
empty text on a matcher error, and `v` when no listed offset matches. -/
def matchScanSpec (pattern v : Str) (suffix : Bool) : List Nat → Str
  | [] => v
  | o :: rest =>
    match filepathMatch pattern (if suffix then v.drop o else v.take o) with
    | .error () => []
    | .ok true => if suffix then v.take o else v.drop o
    | .ok false => matchScanSpec pattern v suffix rest

/-- The store `{foo: bar, bar: gazonk, empty: ""}` used by the
repository's own tests. -/
def testStore : Internal :=
  [(['f', 'o', 'o'], ['b', 'a', 'r']),
    (['b', 'a', 'r'], ['g', 'a', 'z', 'o', 'n', 'k']),
    (['e', 'm', 'p', 't', 'y'], [])]

/-
Theorems. First, sanity checks: the model reproduces the test vectors
of `env_test.go`.
-/

/-- Go `TestFindStart0` / `TestFindStart1` vectors. -/
theorem test_findNextStart_vectors :
    findNextStart ['a', 'p', 'a', 'p', '$', 'f', 'o', 'o'] 0 = some 4 ∧
      findNextStart ['a', 'p', 'a', 'p', 'a', 'p'] 0 = none ∧
      findNextStart ['a', 'p', '$', 'a', 'p', '$', 'f', 'o', 'o'] 3 = some 5 ∧
      findNextStart ['a', 'p', '$', 'a', 'p', '$', 'f', 'o', 'o'] 6 = none := by decide

/-- Go `TestFindEnd` vectors. -/
theorem test_findNextEnd_vectors :
    findNextEnd ['$', '1', '1'] 0 = 2 ∧
      findNextEnd ['$', 'a', 'p', 'a', ' '] 0 = 4 ∧
      findNextEnd ['$', '{', '1', '1', '}'] 0 = 5 ∧
      findNextEnd ['$', '{', 'f', 'o', 'o', '}'] 0 = 6 := by decide

/-- A selection of `TestExpand` evaluation vectors. -/
theorem test_eval_vectors :
    (Expansion.expand [] (.indirect ['f', 'o', 'o']) testStore).1 =
        ['g', 'a', 'z', 'o', 'n', 'k'] ∧
      (Expansion.expand [] (.indirect ['b', 'a', 'r']) testStore).1 = [] ∧
      (Expansion.expand []
        (.defaulted ['e', 'm', 'p', 't', 'y'] (.normal ['f', 'o', 'o']) false) testStore).1 =
          ['b', 'a', 'r'] ∧
      (Expansion.expand []
        (.defaulted ['e', 'm', 'p', 't', 'y'] (.normal ['f', 'o', 'o']) true) testStore).1 = [] ∧
      (Expansion.expand [] (.offset ['b', 'a', 'r'] 0 (-1) true) testStore).1 =
        ['g', 'a', 'z', 'o', 'n'] ∧
      (Expansion.expand [] (.offset ['b', 'a', 'r'] 2 4711 true) testStore).1 =
        ['z', 'o', 'n', 'k'] ∧
      (Expansion.expand []
        (.alternate ['e', 'm', 'p', 't', 'y'] (.constant ['t', 'e', 'x', 't']) true)
        testStore).1 = ['t', 'e', 'x', 't'] ∧
      (Expansion.expand [] (.length ['b', 'a', 'r']) testStore).1 = ['6'] := by decide

/-- Go `TestMainExpand`: the end-to-end vector. -/
theorem test_expand_vector :
    expand [] ['a', '$', '{', 'f', 'o', 'o', '}', 'b'] testStore =
      (.ret ['a', 'b', 'a', 'r', 'b'] none, testStore) := by decide

/-- Evaluating an assign-free node never changes the store. -/
theorem expand_assignFree_frame (args : List Str) (x : Expansion) :
    ∀ e : Internal, assignFree x = true → (Expansion.expand args x e).2 = e := by
  induction x with
  | positional i => intro e _; rfl
  | constant s => intro e _; rfl
  | normal name => intro e _; rfl
  | indirect name => intro e _; rfl
  | defaulted name word unset ih =>
    intro e h
    simp only [assignFree] at h
    simp only [Expansion.expand]
    cases hg : Internal.get e name with
    | none => exact ih e h
    | some v =>
      by_cases hu : (!unset && v.isEmpty) = true
      · simp only [hu, if_true]
        exact ih e h
      · simp [hu]
  | assign name word unset ih =>
    intro e h
    simp [assignFree] at h
  | alternate name word unset ih =>
    intro e h
    simp only [assignFree] at h
    simp only [Expansion.expand]
    cases hg : Internal.get e name with
    | none => rfl
    | some v =>
      by_cases hu : (v.isEmpty && !unset) = true
      · simp only [hu, if_true]
      · simp [hu]
        exact ih e h
  | offset name off len useLen => intro e _; rfl
  | length name => intro e _; rfl
  | patmatch name pattern longest suffix => intro e _; rfl

/-- If every node the driver parses is assign-free, one driver pass
leaves the store unchanged. -/
theorem expandGo_assignFree_frame (args : List Str) (s : Str) :
    ∀ (fuel : Nat) (off : Nat) (e : Internal),
      (∀ n ∈ templateNodesGo fuel s off, assignFree n = true) →
      (expandGo fuel args s off e).2 = e := by
  intro fuel
  induction fuel with
  | zero => intro off e _; rfl
  | succ fuel ih =>
    intro off e h
    simp only [expandGo, templateNodesGo] at *
    cases hfs : findNextStart s off with
    | none => simp only [hfs]
    | some next =>
      simp only [hfs] at h ⊢
      cases hp : parseExpansion s next with
      | err er => simp only [hp]
      | panic => simp only [hp]
      | ok exp =>
        simp only [hp] at h ⊢
        have hx : assignFree exp = true := h exp (List.mem_cons_self _ _)
        have hrest : ∀ n ∈ templateNodesGo fuel s (findNextEnd s next), assignFree n = true :=
          fun n hn => h n (List.mem_cons_of_mem _ hn)
        have he2 : (Expansion.expand args exp e).2 = e :=
          expand_assignFree_frame args exp e hx
        simp only [he2]
        exact ih (findNextEnd s next) e hrest

/-- On a `$`-free character list the start scanner finds nothing, from
any position and in either scanner state. -/
theorem findNextStartAux_eq_none :
    ∀ (rest : List Char), '$' ∉ rest → ∀ (p st : Nat), findNextStartAux rest p st = none := by
  intro rest
  induction rest with
  | nil => intro _ p st; rfl
  | cons c cr ih =>
    intro h p st
    have hc : c ≠ '$' := fun hc => h (hc ▸ List.mem_cons_self c cr)
    have hcr : '$' ∉ cr := fun hm => h (List.mem_cons_of_mem c hm)
    rw [findNextStartAux]
    by_cases hst : st = 0
    · rw [if_pos hst, if_neg hc]
      by_cases hb : c = '\\'
      · rw [if_pos hb]
        exact ih hcr (p + 1) 1
      · rw [if_neg hb]
        exact ih hcr (p + 1) 0
    · rw [if_neg hst]
      exact ih hcr (p + 1) 0

/-- Go `findNextStart` finds nothing in a `$`-free string. -/
theorem findNextStart_eq_none (s : Str) (hd : '$' ∉ s) (p : Nat) :
    findNextStart s p = none :=
  findNextStartAux_eq_none (s.drop p)
    (fun hm => hd ((List.drop_subset p s) hm)) p 0

/-- C8: for every text containing no `$` character and every store,
`expand` returns exactly that text with no error and the store
unchanged, so re-expanding an already-fully-expanded string is a no-op. -/
theorem c8_literal_identity (args : List Str) (s : Str) (e : Internal)
    (h : '$' ∉ s) : expand args s e = (.ret s none, e) := by
  show expandGo (s.length + 1) args s 0 e = (.ret s none, e)
  rw [expandGo, findNextStart_eq_none s h 0]
  simp

/-- C8 witness: a literal template (with a backslash escape in it) is
returned unchanged. -/
theorem c8_literal_identity_witness :
    '$' ∉ (['a', '\\', 'b', 'c'] : Str) ∧
      expand [] ['a', '\\', 'b', 'c'] [(['k'], ['v'])] =
        (.ret ['a', '\\', 'b', 'c'] none, [(['k'], ['v'])]) :=
  ⟨by decide, c8_literal_identity [] ['a', '\\', 'b', 'c'] [(['k'], ['v'])] (by decide)⟩

/-- C7: if no node the driver parses for a template contains an Assign
variant (word operands included), expansion leaves the store untouched:
every later `get` sees exactly what it saw before the call. -/
theorem c7_no_assign_frame (args : List Str) (s : Str) (e : Internal)
    (h : ∀ n ∈ templateNodes s, assignFree n = true) :
    (expand args s e).2 = e :=
  expandGo_assignFree_frame args s (s.length + 1) 0 e h

/-- C7 witness: a template mixing literal text, a normal expansion and a
defaulted expansion (all assign-free) leaves a concrete store as it was. -/
theorem c7_no_assign_frame_witness :
    (∀ n ∈ templateNodes ['a', '$', '{', 'f', '}', '$', '{', 'x', ':', '-', 'q', '}'],
        assignFree n = true) ∧
      (expand [] ['a', '$', '{', 'f', '}', '$', '{', 'x', ':', '-', 'q', '}']
          [(['f'], ['z'])]).2 = [(['f'], ['z'])] :=
  ⟨by decide,
    c7_no_assign_frame [] ['a', '$', '{', 'f', '}', '$', '{', 'x', ':', '-', 'q', '}']
      [(['f'], ['z'])] (by decide)⟩

/-- Whenever one driver pass reports an error, the text it returns is
exactly the fixed placeholder, never partially assembled output. -/
theorem expandGo_err_placeholder (args : List Str) (s : Str) :
    ∀ (fuel off : Nat) (e : Internal) (t : Str) (er : GoErr),
      (expandGo fuel args s off e).1 = .ret t (some er) → t = errPlaceholder := by
  intro fuel
  induction fuel with
  | zero => intro off e t er h; exact absurd h (by simp [expandGo])
  | succ fuel ih =>
    intro off e t er h
    simp only [expandGo] at h
    cases hfs : findNextStart s off with
    | none =>
      simp only [hfs] at h
      exact absurd h (by simp)
    | some next =>
      simp only [hfs] at h
      cases hp : parseExpansion s next with
      | err er2 =>
        simp only [hp] at h
        simp at h
        exact h.1.symm
      | panic =>
        simp only [hp] at h
        simp at h
      | ok exp =>
        simp only [hp] at h
        cases hr : (expandGo fuel args s (findNextEnd s next)
            (Expansion.expand args exp e).2).1 with
        | panicked =>
          simp only [hr] at h
          simp at h
        | ret t2 er2 =>
          cases er2 with
          | none =>
            simp only [hr] at h
            simp at h
          | some er3 =>
            simp only [hr] at h
            have h1 : t2 = t := by cases h; rfl
            exact h1 ▸ ih (findNextEnd s next) (Expansion.expand args exp e).2 t2 er3 hr

/-- C6: when any expansion site fails to parse, `expand` reports an
error for the whole call and the accompanying text is the fixed
placeholder string, not the partially assembled result. (The driver
aborts at the first parse error by construction: `expandGo` returns
without evaluating further sites.) -/
theorem c6_error_placeholder (args : List Str) (s : Str) (e : Internal)
    (t : Str) (er : GoErr) (h : (expand args s e).1 = .ret t (some er)) :
    t = errPlaceholder :=
  expandGo_err_placeholder args s (s.length + 1) 0 e t er h

/-- C6 witness: a template whose second site is malformed produces the
placeholder text and an error, even though the first site expanded. -/
theorem c6_error_placeholder_witness :
    (expand [] ['$', '{', 'f', '}', '$', '{'] [(['f'], ['z'])]).1 =
        .ret errPlaceholder (some .switchFallthrough) ∧ errPlaceholder = errPlaceholder :=
  ⟨by decide,
    c6_error_placeholder [] ['$', '{', 'f', '}', '$', '{'] [(['f'], ['z'])]
      errPlaceholder .switchFallthrough (by decide)⟩

/-- C9: an Assign evaluated before a later site's parse error persists
in the store; there is no rollback. Expanding the claim's example
template with `a` initially absent yields the error return, yet the
store afterwards maps `a` to `x`. -/
theorem c9_assign_persists :
    expand [] ['$', '{', 'a', '=', 'x', '}', '$', '{'] [] =
        (.ret errPlaceholder (some .switchFallthrough), [(['a'], ['x'])]) ∧
      Internal.get (expand [] ['$', '{', 'a', '=', 'x', '}', '$', '{'] []).2 ['a'] =
        some ['x'] := by
  constructor
  · decide
  · decide

/-- C5: Offset evaluation computes exactly the claim's begin/end
arithmetic — begin is `start` (or `l + start` for negative `start`,
empty if still negative), end is `l` without a length, `begin + length`
for positive length, `l + length` otherwise, clamped down to `l`, with
empty text when `end < begin` — and absent names give empty text. -/
theorem c5_offset_semantics (args : List Str) (name : Str) (start len : Int)
    (useLen : Bool) (e : Internal) :
    Expansion.expand args (.offset name start len useLen) e =
      ((match Internal.get e name with
        | none => []
        | some v => offsetSpec v start (if useLen then some len else none)), e) := by
  simp only [Expansion.expand]
  cases hg : Internal.get e name with
  | none => rfl
  | some v =>
    cases useLen with
    | false => rfl
    | true => rfl

/-- The ascending code loop is the spec scan over `range' o k`. -/
theorem matchLoopUpAux_eq_scan (pattern v : Str) (sfx : Bool) :
    ∀ (k o : Nat),
      matchLoopUpAux pattern v sfx o k = matchScanSpec pattern v sfx (List.range' o k) := by
  intro k
  induction k with
  | zero => intro o; rfl
  | succ k ih =>
    intro o
    rw [List.range'_succ]
    rw [matchLoopUpAux, matchScanSpec]
    cases hm : filepathMatch pattern (if sfx then v.drop o else v.take o) with
    | error u => cases u; rfl
    | ok b => cases b <;> simp only [ih]

/-- The descending code loop is the spec scan over `o` down to `0`. -/
theorem matchLoopDown_eq_scan (pattern v : Str) (sfx : Bool) :
    ∀ o : Nat,
      matchLoopDown pattern v sfx o =
        matchScanSpec pattern v sfx ((List.range (o + 1)).reverse) := by
  intro o
  induction o with
  | zero =>
    rw [show (List.range 1).reverse = [0] by rfl]
    rw [matchLoopDown, matchScanSpec]
    cases hm : filepathMatch pattern (if sfx then v.drop 0 else v.take 0) with
    | error u => cases u; rfl
    | ok b => cases b <;> rfl
  | succ o ih =>
    rw [show (List.range (o + 1 + 1)).reverse = (o + 1) :: (List.range (o + 1)).reverse by
      rw [List.range_succ, List.reverse_append]; rfl]
    rw [matchLoopDown, matchScanSpec]
    cases hm : filepathMatch pattern (if sfx then v.drop (o + 1) else v.take (o + 1)) with
    | error u => cases u; rfl
    | ok b => cases b <;> simp only [ih]

/-- The loop body of Match evaluation is the spec scan over the offsets
it actually visits. -/
theorem matchEval_eq_scan (pattern v : Str) (longest suffix : Bool) :
    matchEval pattern v longest suffix =
      matchScanSpec pattern v suffix (matchOffsets v.length longest suffix) := by
  cases longest <;> cases suffix <;>
    simp [matchEval, matchOffsets, matchLoopUp, matchLoopUpAux_eq_scan,
      matchLoopDown_eq_scan, List.range_eq_range']

/-- Peeling one offset: the head of the reversed range. -/
theorem range_succ_reverse (n : Nat) :
    (List.range (n + 1)).reverse = n :: (List.range n).reverse := by
  rw [List.range_succ, List.reverse_append]
  rfl

/-- A matcher error at the first scanned offset makes the scan return
empty text. -/
theorem matchScanSpec_error (pattern v : Str) (sfx : Bool) (o : Nat) (offs : List Nat)
    (he : filepathMatch pattern (if sfx then v.drop o else v.take o) = .error ()) :
    matchScanSpec pattern v sfx (o :: offs) = [] := by
  rw [matchScanSpec, he]

/-- C4 (amended): Match evaluation on a bound name is exactly the spec
scan over the offsets actually scanned — ascending `0 .. l - 1` for
(suffix, longest) and (head, shortest), descending `l .. 0` for the
other two directions — returning the result of the first matching
offset (empty text on a matcher error, `v` when nothing matches). -/
theorem c4_match_scan_amended (args : List Str) (name pattern : Str)
    (longest suffix : Bool) (e : Internal) (v : Str)
    (h : Internal.get e name = some v) :
    Expansion.expand args (.patmatch name pattern longest suffix) e =
      (matchScanSpec pattern v suffix (matchOffsets v.length longest suffix), e) := by
  simp only [Expansion.expand, h]
  rw [matchEval_eq_scan]

/-- C4 witness: a concrete shortest-head scan, with the amended offsets. -/
theorem c4_match_scan_witness :
    Internal.get [(['n'], ['a', 'b'])] ['n'] = some ['a', 'b'] ∧
      Expansion.expand [] (.patmatch ['n'] ['a', '*'] false false) [(['n'], ['a', 'b'])] =
        (matchScanSpec ['a', '*'] ['a', 'b'] false (matchOffsets 2 false false),
          [(['n'], ['a', 'b'])]) :=
  ⟨by decide,
    c4_match_scan_amended [] ['n'] ['a', '*'] false false [(['n'], ['a', 'b'])]
      ['a', 'b'] (by decide)⟩

/-- C4 counterexample: the ascending scans stop at `l - 1`, so a
shortest-head Match whose pattern matches only the ENTIRE value returns
the value unchanged, not empty text as the claim (which scans to `l`
inclusive) predicts. -/
theorem c4_match_scan_cex :
    filepathMatch ['a', 'b'] ['a', 'b'] = .ok true ∧
      (Expansion.expand [] (.patmatch ['n'] ['a', 'b'] false false)
          [(['n'], ['a', 'b'])]).1 = ['a', 'b'] ∧
      (['a', 'b'] : Str) ≠ ([] : Str) := by decide

/-- C2 (amended): when the matcher rejects the pattern on every slice
of the stored value, Match evaluation returns EMPTY text (not the value
unchanged): the first scanned offset already reports the bad pattern. -/
theorem c2_match_badpattern_amended (args : List Str) (name pattern : Str)
    (longest suffix : Bool) (e : Internal) (v : Str)
    (h1 : Internal.get e name = some v)
    (h2 : ∀ o, o ≤ v.length →
      filepathMatch pattern (v.drop o) = .error () ∧
        filepathMatch pattern (v.take o) = .error ()) :
    Expansion.expand args (.patmatch name pattern longest suffix) e = ([], e) := by
  simp only [Expansion.expand, h1]
  rw [matchEval_eq_scan]
  refine congrArg (fun t => ((t : Str), e)) ?_
  cases longest <;> cases suffix
  · -- ascending over the heads v[:o]
    rw [show matchOffsets v.length false false = List.range v.length from rfl]
    cases hv : v.length with
    | zero => exact List.length_eq_zero.mp hv
    | succ n =>
      rw [List.range_succ_eq_map]
      exact matchScanSpec_error pattern v false 0 _ ((h2 0 (Nat.zero_le _)).2)
  · -- descending over the suffixes v[o:]
    rw [show matchOffsets v.length false true = (List.range (v.length + 1)).reverse from rfl]
    rw [range_succ_reverse]
    exact matchScanSpec_error pattern v true v.length _ ((h2 v.length (Nat.le_refl _)).1)
  · -- descending over the heads v[:o]
    rw [show matchOffsets v.length true false = (List.range (v.length + 1)).reverse from rfl]
    rw [range_succ_reverse]
    exact matchScanSpec_error pattern v false v.length _ ((h2 v.length (Nat.le_refl _)).2)
  · -- ascending over the suffixes v[o:]
    rw [show matchOffsets v.length true true = List.range v.length from rfl]
    cases hv : v.length with
    | zero => exact List.length_eq_zero.mp hv
    | succ n =>
      rw [List.range_succ_eq_map]
      exact matchScanSpec_error pattern v true 0 _ ((h2 0 (Nat.zero_le _)).1)

/-- C2 witness: the malformed pattern `[` on a bound, non-empty value
yields empty text in a concrete store. -/
theorem c2_match_badpattern_witness :
    Internal.get [(['n'], ['a', 'b', 'c'])] ['n'] = some ['a', 'b', 'c'] ∧
      (∀ o, o ≤ (['a', 'b', 'c'] : Str).length →
        filepathMatch ['['] ((['a', 'b', 'c'] : Str).drop o) = .error () ∧
          filepathMatch ['['] ((['a', 'b', 'c'] : Str).take o) = .error ()) ∧
      Expansion.expand [] (.patmatch ['n'] ['['] true true) [(['n'], ['a', 'b', 'c'])] =
        ([], [(['n'], ['a', 'b', 'c'])]) :=
  ⟨by decide, by decide,
    c2_match_badpattern_amended [] ['n'] ['['] true true [(['n'], ['a', 'b', 'c'])]
      ['a', 'b', 'c'] (by decide) (by decide)⟩

/-- C2 counterexample: with `n` bound to `abc` and the malformed pattern
`[`, Match evaluation returns empty text, not the value unchanged as the
claim states. -/
theorem c2_match_badpattern_cex :
    (Expansion.expand [] (.patmatch ['n'] ['['] true true) [(['n'], ['a', 'b', 'c'])]).1 =
        ([] : Str) ∧
      ([] : Str) ≠ ['a', 'b', 'c'] := by decide

/-- C1 (amended): Assign's trigger ignores the emptyCountsAsUnset flag
entirely — it fires exactly when the name is ABSENT, in which case it
evaluates the word, writes the result, and returns it; when the name is
present (even bound to empty text) it returns the stored value and
leaves the store untouched. -/
theorem c1_assign_trigger_amended (args : List Str) (name : Str) (word : Expansion)
    (unset : Bool) (e : Internal) :
    (Internal.get e name = none →
      Expansion.expand args (.assign name word unset) e =
        ((Expansion.expand args word e).1,
          Internal.set (Expansion.expand args word e).2 name
            (Expansion.expand args word e).1)) ∧
    (∀ v, Internal.get e name = some v →
      Expansion.expand args (.assign name word unset) e = (v, e)) := by
  constructor
  · intro h
    simp only [Expansion.expand, h]
  · intro v h
    simp only [Expansion.expand, h]

/-- C1 witness: both trigger directions at concrete inputs — present
(returns the stored value, no write) and absent (writes and returns). -/
theorem c1_assign_trigger_witness :
    (Internal.get [(['n'], ['v'])] ['n'] = some ['v'] ∧
      Expansion.expand [] (.assign ['n'] (.constant ['w']) false) [(['n'], ['v'])] =
        (['v'], [(['n'], ['v'])])) ∧
    (Internal.get [] ['n'] = none ∧
      Expansion.expand [] (.assign ['n'] (.constant ['w']) true) [] =
        (['w'], [(['n'], ['w'])])) :=
  ⟨⟨by decide,
      (c1_assign_trigger_amended [] ['n'] (.constant ['w']) false [(['n'], ['v'])]).2
        ['v'] (by decide)⟩,
    ⟨by decide,
      (c1_assign_trigger_amended [] ['n'] (.constant ['w']) true []).1 (by decide)⟩⟩

/-- C1 counterexample: `${n:=w}` parses to an Assign node, but with `n`
bound to EMPTY text evaluation returns empty and writes nothing — not
`w` with a store write, as the claimed Defaulted-identical trigger
requires. -/
theorem c1_assign_trigger_cex :
    parseExpansion ['$', '{', 'n', ':', '=', 'w', '}'] 0 =
        .ok (.assign ['n'] (.constant ['w']) false) ∧
      Expansion.expand [] (.assign ['n'] (.constant ['w']) false) [(['n'], [])] =
        ([], [(['n'], [])]) ∧
      (([] : Str) ≠ ['w'] ∧ Internal.get [(['n'], [])] ['n'] ≠ some ['w']) := by decide

/-- C3 (code bug): a `$` that ends the string, an unterminated
`${name:-word`, and an unterminated `${name:2` all drive the parser into
an out-of-bounds index or slice (a Go runtime panic), not a returned
parse error. -/
theorem c3_parse_oob_panics :
    parseExpansion ['$'] 0 = .panic ∧
      parseExpansion ['$', '{', 'n', 'a', 'm', 'e', ':', '-', 'w', 'o', 'r', 'd'] 0 = .panic ∧
      parseExpansion ['$', '{', 'n', 'a', 'm', 'e', ':', '2'] 0 = .panic := by decide

/-- C10: with a braced word operand, the driver's cursor advances only
one past the FIRST `}` in the span, so the outer `}` is emitted
literally: expanding the claim's example gives `v}` (not `v`), with
`findNextEnd` stopping at position 9 of the 10-character template. -/
theorem c10_nested_brace :
    findNextEnd ['$', '{', 'x', ':', '-', '$', '{', 'y', '}', '}'] 0 = 9 ∧
      expand [] ['$', '{', 'x', ':', '-', '$', '{', 'y', '}', '}'] [(['y'], ['v'])] =
        (.ret ['v', '}'] none, [(['y'], ['v'])]) := by
  constructor
  · decide
  · decide

end VatineEnv
